import Mathlib

set_option maxRecDepth 10000

/-!
Shallow embedding of `src/nscm.py`, the "no-shit commit messages" git wrapper.

Python strings are modelled as `List Char`; the command-line argument vector is
a `List String`.  The text helpers (`strip`, `rstrip`, `splitlines`, `join`)
are translated with Python's semantics restricted to `'\n'` line endings, which
are the only line endings the repository's data ever contains.
-/

/-- Token test from `_extract_commit_args`: `a == "-m" or a == "--message"`. -/
def isMsgFlag (a : String) : Bool :=
  a == "-m" || a == "--message"

/-- Value test from `_extract_commit_args`:
`val == "" or val == '"' or val == "'"` (empty or a bare quotation mark). -/
def isEmptyMsgVal (v : String) : Bool :=
  v == "" || v == "\x22" || v == "\x27"

/-- The `while i < len(args)` loop of `_extract_commit_args`.  `args` is the
full argument list after the `commit` token (used by the early
`return False, ["commit"] + args`), the second parameter is the still
unprocessed suffix, then the `should_generate` accumulator and the `cleaned`
accumulator (which starts as `["commit"]`). -/
def extract_commit_loop (args : List String) :
    List String → Bool → List String → Bool × List String
  | [], should_generate, cleaned => (should_generate, cleaned)
  | a :: rest, should_generate, cleaned =>
    if isMsgFlag a then
      match rest with
      | val :: rest2 =>
        if isEmptyMsgVal val then
          extract_commit_loop args rest2 true cleaned
        else
          (false, "commit" :: args)
      | [] => (true, cleaned)
    else
      extract_commit_loop args rest should_generate (cleaned ++ [a])

/-- `_extract_commit_args(argv)` from `src/nscm.py`: detect `commit -m ""`
(or `--message`, or a bare quote value, or a trailing flag) and return
`(should_generate, passthrough_args)`. -/
def extract_commit_args (argv : List String) : Bool × List String :=
  match argv with
  | [] => (false, [])
  | first :: args =>
    if first = "commit" then
      extract_commit_loop args args false ["commit"]
    else
      (false, first :: args)

/-- Python's whitespace test used by `str.strip` / `str.rstrip`. -/
def pyIsSpace (c : Char) : Bool := c.isWhitespace

/-- Python `s.lstrip()`. -/
def pyLstrip (s : List Char) : List Char := s.dropWhile pyIsSpace

/-- Python `s.rstrip()`. -/
def pyRstrip (s : List Char) : List Char := (s.reverse.dropWhile pyIsSpace).reverse

/-- Python `s.strip()`. -/
def pyStrip (s : List Char) : List Char := pyRstrip (pyLstrip s)

/-- Worker for `str.splitlines` (with `'\n'` line endings): on every newline
emit the accumulated line, and at the end emit the accumulator only when it is
non-empty (so a trailing newline produces no extra empty line). -/
def splitlinesGo : List Char → List Char → List (List Char)
  | [], acc => if acc.isEmpty then [] else [acc]
  | c :: cs, acc =>
    if c = '\n' then acc :: splitlinesGo cs []
    else splitlinesGo cs (acc ++ [c])

/-- Python `s.splitlines()` for `'\n'`-separated text. -/
def pySplitlines (s : List Char) : List (List Char) := splitlinesGo s []

/-- Python `"\n".join(lines)`. -/
def joinNL : List (List Char) → List Char
  | [] => []
  | [l] => l
  | l :: l' :: ls => l ++ '\n' :: joinNL (l' :: ls)

/-- The literal appended by `_get_staged_diff` on overflow:
`"\n... (truncated) ..."` (note that it starts with a newline). -/
def truncationMarker : List Char := '\n' :: "... (truncated) ...".toList

/-- `_get_staged_diff` from `src/nscm.py`, as a function of the captured
`git diff --cached` output (the successful-exit path): return `""` when the
output strips to nothing, otherwise split into lines, truncate to `max_lines`
lines plus the marker when over the limit, and re-join with newlines. -/
def get_staged_diff (out : List Char) (max_lines : Nat) : List Char :=
  if (pyStrip out).isEmpty then []
  else
    let lines := pySplitlines out
    let lines2 :=
      if max_lines < lines.length then lines.take max_lines ++ [truncationMarker]
      else lines
    joinNL lines2

/-- Tail of `_openai_chat_complete`: the extracted choice content is returned
as `content.strip()`. -/
def openai_content_post (content : List Char) : List Char := pyStrip content

/-- The post-processing of `_generate_message` applied to the raw model
response content: `_openai_chat_complete` strips it, then
`first_line = content.splitlines()[0].strip()` and, when longer than 120
characters, `first_line = first_line[:120].rstrip()`.  `none` models the
`IndexError` raised by `splitlines()[0]` on content that strips to empty
(the caller catches it and reports a generation failure). -/
def generate_message_post (content : List Char) : Option (List Char) :=
  match pySplitlines (openai_content_post content) with
  | [] => none
  | first :: _ =>
    let first_line := pyStrip first
    some (if 120 < first_line.length then pyRstrip (first_line.take 120) else first_line)

/-- `main()` from `src/nscm.py`, parameterised by the outcomes of its external
effects: `diff_code`/`diff_out` are the exit code and captured stdout of
`git diff --cached`, `gen_result` is the outcome of `_generate_message`
(`none` models a raised exception), and `git_run` gives the exit code of a
passthrough/commit invocation of git.  The returned pair is the process exit
code together with a flag recording whether the text-generation call was
reached. -/
def main_model (argv : List String) (diff_code : Int) (diff_out : List Char)
    (gen_result : Option (List Char)) (git_run : List String → Int) : Int × Bool :=
  let r := extract_commit_args argv
  if r.1 = false then (git_run argv, false)
  else if diff_code ≠ 0 then (1, false)
  else
    let diff := get_staged_diff diff_out 500
    if (pyStrip diff).isEmpty then (1, false)
    else
      match gen_result with
      | none => (1, true)
      | some message =>
        if (pyStrip message).isEmpty then (1, true)
        else (git_run (r.2 ++ ["-m", String.mk message]), true)

/-! ### Lemmas about the argument classifier -/

theorem flag_not_emptyVal {t : String} (h : isMsgFlag t = true) :
    isEmptyMsgVal t = false := by
  rcases Bool.or_eq_true_iff.mp h with h' | h' <;>
    rw [eq_of_beq h'] <;> decide

theorem extract_loop_nil (args : List String) (sg : Bool) (cleaned : List String) :
    extract_commit_loop args [] sg cleaned = (sg, cleaned) := rfl

/-- Scanning tokens that are not message flags just copies them to `cleaned`. -/
theorem extract_loop_flagfree (args : List String) (pre : List String)
    (h : ∀ t ∈ pre, isMsgFlag t = false) :
    ∀ (rest : List String) (sg : Bool) (cleaned : List String),
      extract_commit_loop args (pre ++ rest) sg cleaned =
        extract_commit_loop args rest sg (cleaned ++ pre) := by
  induction pre with
  | nil => intro rest sg cleaned; simp
  | cons a pre ih =>
    intro rest sg cleaned
    have ha : isMsgFlag a = false := h a (by simp)
    have hpre : ∀ t ∈ pre, isMsgFlag t = false := fun t ht => h t (by simp [ht])
    have step : extract_commit_loop args ((a :: pre) ++ rest) sg cleaned =
        extract_commit_loop args (pre ++ rest) sg (cleaned ++ [a]) := by
      rw [extract_commit_loop.eq_def]
      simp [ha]
    rw [step, ih hpre]
    simp

/-- If the remaining tokens contain a message flag whose following token is a
non-empty, non-quote value, the loop short-circuits to
`(false, "commit" :: args)`. -/
theorem extract_loop_nonempty_flag :
    ∀ (rem : List String), ∀ (args : List String) (sg : Bool) (cleaned : List String)
      (i : Nat) (f v : String), rem[i]? = some f → isMsgFlag f = true →
      rem[i + 1]? = some v → isEmptyMsgVal v = false →
      extract_commit_loop args rem sg cleaned = (false, "commit" :: args)
  | [], _, _, _, i, f, v => by intro hf _ _ _; simp at hf
  | [a], args, sg, cleaned, i, f, v => by
    intro hf hfl hv hne
    match i with
    | 0 =>
      simp at hv
    | i + 1 =>
      rw [show ([a] : List String)[i + 1]? = none by simp] at hf
      exact absurd hf (by simp)
  | a :: b :: rest2, args, sg, cleaned, i, f, v => by
    intro hf hfl hv hne
    by_cases hfa : isMsgFlag a = true
    · by_cases hev : isEmptyMsgVal b = true
      · have hrec : extract_commit_loop args (a :: b :: rest2) sg cleaned =
            extract_commit_loop args rest2 true cleaned := by
          rw [extract_commit_loop.eq_def]
          simp [hfa, hev]
        rw [hrec]
        match i with
        | 0 =>
          simp at hf hv
          rw [← hv] at hne
          rw [hev] at hne
          exact absurd hne (by simp)
        | 1 =>
          simp at hf
          rw [← hf] at hfl
          rw [flag_not_emptyVal hfl] at hev
          exact absurd hev (by simp)
        | i + 2 =>
          simp only [List.getElem?_cons_succ] at hf hv
          exact extract_loop_nonempty_flag rest2 args true cleaned i f v hf hfl hv hne
      · rw [extract_commit_loop.eq_def]
        simp [hfa, hev]
    · have hrec : extract_commit_loop args (a :: b :: rest2) sg cleaned =
          extract_commit_loop args (b :: rest2) sg (cleaned ++ [a]) := by
        rw [extract_commit_loop.eq_def]
        simp [hfa]
      rw [hrec]
      match i with
      | 0 =>
        simp at hf
        rw [hf] at hfa
        exact absurd hfl hfa
      | i + 1 =>
        have hf' : (b :: rest2)[i]? = some f := by simpa using hf
        have hv' : (b :: rest2)[i + 1]? = some v := by simpa using hv
        exact extract_loop_nonempty_flag (b :: rest2) args sg (cleaned ++ [a]) i f v hf' hfl hv' hne

/-- If the remaining tokens end in a message flag and every message flag that
is followed by a token is followed by an empty/bare-quote value, the loop
reports `should_generate = true`. -/
theorem extract_loop_trailing_flag :
    ∀ (rem : List String), ∀ (args : List String) (sg : Bool) (cleaned : List String)
      (m : String), isMsgFlag m = true → rem.getLast? = some m →
      (∀ (i : Nat) (f v : String), rem[i]? = some f → isMsgFlag f = true →
        rem[i + 1]? = some v → isEmptyMsgVal v = true) →
      (extract_commit_loop args rem sg cleaned).1 = true
  | [], _, _, _, m => by intro _ hlast _; simp at hlast
  | [a], args, sg, cleaned, m => by
    intro hm hlast hpairs
    have ha : a = m := by simpa using hlast
    rw [extract_commit_loop.eq_def]
    simp [ha, hm]
  | a :: b :: rest2, args, sg, cleaned, m => by
    intro hm hlast hpairs
    have hlast' : (b :: rest2).getLast? = some m := by
      simpa [List.getLast?_cons_cons] using hlast
    by_cases hfa : isMsgFlag a = true
    · have hev : isEmptyMsgVal b = true :=
        hpairs 0 a b (by simp) hfa (by simp)
      have hrec : extract_commit_loop args (a :: b :: rest2) sg cleaned =
          extract_commit_loop args rest2 true cleaned := by
        rw [extract_commit_loop.eq_def]
        simp [hfa, hev]
      rw [hrec]
      match rest2 with
      | [] =>
        have hb : b = m := by simpa using hlast'
        rw [hb] at hev
        rw [flag_not_emptyVal hm] at hev
        exact absurd hev (by simp)
      | c :: rest3 =>
        have hlast'' : (c :: rest3).getLast? = some m := by
          simpa [List.getLast?_cons_cons] using hlast'
        refine extract_loop_trailing_flag (c :: rest3) args true cleaned m hm hlast'' ?_
        intro i f v hf hfl hv
        exact hpairs (i + 2) f v (by simpa using hf) hfl (by simpa using hv)
    · have hrec : extract_commit_loop args (a :: b :: rest2) sg cleaned =
          extract_commit_loop args (b :: rest2) sg (cleaned ++ [a]) := by
        rw [extract_commit_loop.eq_def]
        simp [hfa]
      rw [hrec]
      refine extract_loop_trailing_flag (b :: rest2) args sg (cleaned ++ [a]) m hm hlast' ?_
      intro i f v hf hfl hv
      exact hpairs (i + 1) f v (by simpa using hf) hfl (by simpa using hv)

/-- Whenever the loop finishes with `should_generate = true`, the `cleaned`
accumulator has been extended exactly by the scanned tokens that are not
message flags and not the empty/bare-quote values consumed with them. -/
theorem extract_loop_true_inv :
    ∀ (rem : List String), ∀ (args : List String) (sg : Bool) (cleaned out : List String),
      extract_commit_loop args rem sg cleaned = (true, out) →
      ∃ add, out = cleaned ++ add ∧ add.Sublist rem ∧
        (∀ t ∈ add, isMsgFlag t = false) ∧
        (∀ t : String, isMsgFlag t = false → isEmptyMsgVal t = false →
          add.count t = rem.count t)
  | [], args, sg, cleaned, out => by
    intro h
    rw [extract_loop_nil, Prod.mk.injEq] at h
    refine ⟨[], by simp [← h.2], by simp, by simp, by simp⟩
  | [a], args, sg, cleaned, out => by
    intro h
    rw [extract_commit_loop.eq_def] at h
    by_cases hfa : isMsgFlag a = true
    · simp only [hfa, if_true, Prod.mk.injEq] at h
      refine ⟨[], by simp [← h.2], by simp, by simp, ?_⟩
      intro t ht _
      have hta : a ≠ t := by
        intro e
        rw [e, ht] at hfa
        exact absurd hfa (by simp)
      simp [List.count_cons, hta]
    · simp only [hfa, if_false, Bool.false_eq_true] at h
      rw [extract_loop_nil, Prod.mk.injEq] at h
      refine ⟨[a], by simp [← h.2], by simp, by simp [hfa], by simp⟩
  | a :: b :: rest2, args, sg, cleaned, out => by
    intro h
    by_cases hfa : isMsgFlag a = true
    · by_cases hev : isEmptyMsgVal b = true
      · rw [extract_commit_loop.eq_def] at h
        simp only [hfa, hev, if_true] at h
        obtain ⟨add, hout, hsub, hflags, hcount⟩ :=
          extract_loop_true_inv rest2 args true cleaned out h
        refine ⟨add, hout, hsub.trans (by simp), hflags, ?_⟩
        intro t ht he
        have hta : a ≠ t := by
          intro e
          rw [e, ht] at hfa
          exact absurd hfa (by simp)
        have htb : b ≠ t := by
          intro e
          rw [e, he] at hev
          exact absurd hev (by simp)
        simp [List.count_cons, hta, htb, hcount t ht he]
      · rw [extract_commit_loop.eq_def] at h
        simp [hfa, hev] at h
    · have hrec : extract_commit_loop args (a :: b :: rest2) sg cleaned =
          extract_commit_loop args (b :: rest2) sg (cleaned ++ [a]) := by
        rw [extract_commit_loop.eq_def]
        simp [hfa]
      rw [hrec] at h
      obtain ⟨add, hout, hsub, hflags, hcount⟩ :=
        extract_loop_true_inv (b :: rest2) args sg (cleaned ++ [a]) out h
      refine ⟨a :: add, by simpa using hout, hsub.cons₂ a, ?_, ?_⟩
      · intro t ht
        rcases List.mem_cons.mp ht with rfl | ht'
        · simpa using hfa
        · exact hflags t ht'
      · intro t ht he
        simp [List.count_cons, hcount t ht he]

/-- Scanning a flag-free list just appends it to `cleaned` and stops. -/
theorem extract_loop_flagfree_all (args mid : List String)
    (h : ∀ t ∈ mid, isMsgFlag t = false) (sg : Bool) (cleaned : List String) :
    extract_commit_loop args mid sg cleaned = (sg, cleaned ++ mid) := by
  have hx := extract_loop_flagfree args mid h [] sg cleaned
  rw [List.append_nil] at hx
  rw [hx, extract_loop_nil]

theorem extract_commit_args_commit (args : List String) :
    extract_commit_args ("commit" :: args) =
      extract_commit_loop args args false ["commit"] := by
  simp [extract_commit_args]

/-! ### Lemmas about the Python string helpers -/

theorem dropWhile_head_false {α : Type} (p : α → Bool) (l : List α) :
    ∀ (c : α) (t : List α), l.dropWhile p = c :: t → p c = false := by
  induction l with
  | nil => intro c t h; simp at h
  | cons a l ih =>
    intro c t h
    by_cases ha : p a = true
    · rw [List.dropWhile_cons_of_pos ha] at h
      exact ih c t h
    · rw [List.dropWhile_cons_of_neg ha] at h
      injection h with h1 h2
      subst h1
      simpa using ha

theorem dropWhile_idem {α : Type} (p : α → Bool) (l : List α) :
    List.dropWhile p (List.dropWhile p l) = List.dropWhile p l := by
  cases h : List.dropWhile p l with
  | nil => simp
  | cons c t =>
    rw [List.dropWhile_cons_of_neg (by simp [dropWhile_head_false p l c t h])]

/-- A right strip removes a (whitespace) suffix and keeps the rest intact. -/
theorem pyRstrip_decomp (s : List Char) :
    ∃ w, s = pyRstrip s ++ w ∧ ∀ x ∈ w, pyIsSpace x = true := by
  refine ⟨(s.reverse.takeWhile pyIsSpace).reverse, ?_, ?_⟩
  · conv_lhs => rw [← List.reverse_reverse s,
      ← List.takeWhile_append_dropWhile pyIsSpace s.reverse]
    rw [List.reverse_append]
    rfl
  · intro x hx
    rw [List.mem_reverse] at hx
    exact List.mem_takeWhile_imp hx

theorem pyRstrip_append_ws (l w : List Char) (h : ∀ x ∈ w, pyIsSpace x = true) :
    pyRstrip (l ++ w) = pyRstrip l := by
  unfold pyRstrip
  rw [List.reverse_append, List.dropWhile_append]
  have hnil : List.dropWhile pyIsSpace w.reverse = [] :=
    List.dropWhile_eq_nil_iff.mpr (fun x hx => h x (List.mem_reverse.mp hx))
  rw [hnil]
  simp

theorem pyRstrip_append_keep (a b : List Char) (x : Char) (hx : x ∈ b)
    (hxs : pyIsSpace x = false) :
    pyRstrip (a ++ b) = a ++ pyRstrip b := by
  unfold pyRstrip
  rw [List.reverse_append, List.dropWhile_append]
  have hne : List.dropWhile pyIsSpace b.reverse ≠ [] := by
    intro h0
    have hx' := List.dropWhile_eq_nil_iff.mp h0 x (List.mem_reverse.mpr hx)
    rw [hxs] at hx'
    exact absurd hx' (by simp)
  rw [if_neg (by simpa using hne), List.reverse_append, List.reverse_reverse]

theorem pyRstrip_cons_not_ws (c : Char) (l : List Char) (hc : pyIsSpace c = false) :
    pyRstrip (c :: l) = c :: pyRstrip l := by
  unfold pyRstrip
  rw [show (c :: l).reverse = l.reverse ++ [c] by simp, List.dropWhile_append]
  by_cases h0 : (List.dropWhile pyIsSpace l.reverse).isEmpty = true
  · rw [if_pos h0, List.dropWhile_cons_of_neg (by simp [hc])]
    have h1 : List.dropWhile pyIsSpace l.reverse = [] := by simpa using h0
    rw [h1]
    simp
  · rw [if_neg h0]
    simp

theorem pyRstrip_idem (l : List Char) : pyRstrip (pyRstrip l) = pyRstrip l := by
  unfold pyRstrip
  rw [List.reverse_reverse, dropWhile_idem]

theorem mem_pyRstrip (l : List Char) (x : Char) (hx : x ∈ pyRstrip l) : x ∈ l := by
  obtain ⟨w, hw, -⟩ := pyRstrip_decomp l
  rw [hw]
  exact List.mem_append_left _ hx

theorem pyRstrip_length_le (l : List Char) : (pyRstrip l).length ≤ l.length := by
  obtain ⟨w, hw, -⟩ := pyRstrip_decomp l
  conv_rhs => rw [hw]
  simp

theorem mem_pyLstrip (l : List Char) (x : Char) (hx : x ∈ pyLstrip l) : x ∈ l := by
  have h := List.takeWhile_append_dropWhile pyIsSpace l
  rw [← h]
  exact List.mem_append_right _ hx

theorem mem_pyStrip (l : List Char) (x : Char) (hx : x ∈ pyStrip l) : x ∈ l :=
  mem_pyLstrip l x (mem_pyRstrip (pyLstrip l) x hx)

/-- A non-empty stripped string starts with a non-whitespace character. -/
theorem pyStrip_cons_head (s : List Char) (c : Char) (t : List Char)
    (h : pyStrip s = c :: t) : pyIsSpace c = false := by
  obtain ⟨w, hw, -⟩ := pyRstrip_decomp (pyLstrip s)
  rw [show pyRstrip (pyLstrip s) = pyStrip s from rfl, h] at hw
  exact dropWhile_head_false pyIsSpace s c (t ++ w) (by simpa using hw)

theorem pyStrip_cons_not_ws (c : Char) (l : List Char) (hc : pyIsSpace c = false) :
    pyStrip (c :: l) = c :: pyRstrip l := by
  unfold pyStrip pyLstrip
  rw [List.dropWhile_cons_of_neg (by simp [hc])]
  exact pyRstrip_cons_not_ws c l hc

/-- The 120-character guardrail of `_generate_message` commutes with the
right strip: truncating the stripped line and re-stripping is the same as
right-stripping the truncated raw line. -/
theorem pyRstrip_take_trunc (l : List Char) (n : Nat) :
    (if n < (pyRstrip l).length then pyRstrip ((pyRstrip l).take n) else pyRstrip l) =
      pyRstrip (l.take n) := by
  obtain ⟨w, hw, hws⟩ := pyRstrip_decomp l
  by_cases h : n < (pyRstrip l).length
  · rw [if_pos h]
    have htake : l.take n = (pyRstrip l).take n := by
      conv_lhs => rw [hw]
      rw [List.take_append_eq_append_take, show n - (pyRstrip l).length = 0 by omega]
      simp
    rw [htake]
  · rw [if_neg h]
    have hlen : (pyRstrip l).length ≤ n := by omega
    have htake : l.take n = pyRstrip l ++ w.take (n - (pyRstrip l).length) := by
      conv_lhs => rw [hw]
      rw [List.take_append_eq_append_take, List.take_of_length_le hlen]
    rw [htake, pyRstrip_append_ws _ _ (fun x hx => hws x (List.take_subset _ _ hx))]
    exact (pyRstrip_idem l).symm

/-! ### Lemmas about splitlines and join -/

theorem splitlinesGo_cons_not_nl (c : Char) (cs acc : List Char) (hc : ¬ c = '\n') :
    splitlinesGo (c :: cs) acc = splitlinesGo cs (acc ++ [c]) := by
  rw [splitlinesGo.eq_def]
  simp [hc]

theorem splitlinesGo_cons_nl (cs acc : List Char) :
    splitlinesGo ('\n' :: cs) acc = acc :: splitlinesGo cs [] := by
  rw [splitlinesGo.eq_def]
  simp

theorem splitlinesGo_append_newline (l : List Char) (hl : '\n' ∉ l) :
    ∀ (rest acc : List Char),
      splitlinesGo (l ++ '\n' :: rest) acc = (acc ++ l) :: splitlinesGo rest [] := by
  induction l with
  | nil => intro rest acc; simp [splitlinesGo_cons_nl]
  | cons c cs ih =>
    intro rest acc
    have hc : ¬ c = '\n' := by intro e; exact hl (by simp [e])
    have hcs : '\n' ∉ cs := fun h => hl (by simp [h])
    rw [List.cons_append, splitlinesGo_cons_not_nl c _ acc hc, ih hcs]
    simp

theorem splitlinesGo_no_newline (l : List Char) (hl : '\n' ∉ l) :
    ∀ acc, splitlinesGo l acc = if (acc ++ l).isEmpty then [] else [acc ++ l] := by
  induction l with
  | nil => intro acc; simp [splitlinesGo]
  | cons c cs ih =>
    intro acc
    have hc : ¬ c = '\n' := by intro e; exact hl (by simp [e])
    have hcs : '\n' ∉ cs := fun h => hl (by simp [h])
    rw [splitlinesGo_cons_not_nl c cs acc hc, ih hcs]
    simp

theorem splitlinesGo_no_nl_mem (s : List Char) :
    ∀ acc, '\n' ∉ acc → ∀ l ∈ splitlinesGo s acc, '\n' ∉ l := by
  induction s with
  | nil =>
    intro acc hacc l hl
    rw [splitlinesGo.eq_def] at hl
    by_cases ha : acc.isEmpty = true
    · simp [ha] at hl
    · simp [ha] at hl
      rw [hl]
      exact hacc
  | cons c cs ih =>
    intro acc hacc l hl
    by_cases hc : c = '\n'
    · subst hc
      rw [splitlinesGo_cons_nl] at hl
      rcases List.mem_cons.mp hl with rfl | hl'
      · exact hacc
      · exact ih [] (by simp) l hl'
    · rw [splitlinesGo_cons_not_nl c cs acc hc] at hl
      refine ih (acc ++ [c]) ?_ l hl
      intro hmem
      rcases List.mem_append.mp hmem with h1 | h1
      · exact hacc h1
      · have h2 : '\n' = c := by simpa using h1
        exact hc h2.symm

theorem splitlinesGo_first (s : List Char) :
    ∀ (acc r : List Char) (rs : List (List Char)),
      splitlinesGo s acc = r :: rs → ∃ t, r = acc ++ t := by
  induction s with
  | nil =>
    intro acc r rs h
    rw [splitlinesGo.eq_def] at h
    by_cases ha : acc.isEmpty = true
    · simp [ha] at h
    · simp [ha] at h
      exact ⟨[], by simp [h.1.symm]⟩
  | cons c cs ih =>
    intro acc r rs h
    by_cases hc : c = '\n'
    · subst hc
      rw [splitlinesGo_cons_nl] at h
      injection h with h1 h2
      exact ⟨[], by simp [h1.symm]⟩
    · rw [splitlinesGo_cons_not_nl c cs acc hc] at h
      obtain ⟨t, ht⟩ := ih (acc ++ [c]) r rs h
      exact ⟨c :: t, by simp [ht]⟩

theorem joinNL_single (l : List Char) : joinNL [l] = l := rfl

theorem joinNL_cons_cons (l l' : List Char) (ls : List (List Char)) :
    joinNL (l :: l' :: ls) = l ++ '\n' :: joinNL (l' :: ls) := rfl

/-- Splitting a newline-join recovers the original lines, provided every line
is newline-free and the last one is non-empty (a trailing empty line would be
swallowed, as in Python). -/
theorem pySplitlines_joinNL :
    ∀ (L : List (List Char)), L ≠ [] → (∀ l ∈ L, '\n' ∉ l) →
      L.getLast? ≠ some [] → pySplitlines (joinNL L) = L
  | [] => by intro h _ _; exact absurd rfl h
  | [l] => by
    intro _ hnl hlast
    rw [joinNL_single]
    unfold pySplitlines
    rw [splitlinesGo_no_newline l (hnl l (by simp)) []]
    have hne : l ≠ [] := by
      intro e
      apply hlast
      subst e
      simp
    simp [hne]
  | l :: l' :: ls => by
    intro _ hnl hlast
    rw [joinNL_cons_cons]
    unfold pySplitlines
    rw [splitlinesGo_append_newline l (hnl l (by simp)) (joinNL (l' :: ls)) []]
    have hrec := pySplitlines_joinNL (l' :: ls) (by simp)
      (fun x hx => hnl x (by simp [hx]))
      (by simpa [List.getLast?_cons_cons] using hlast)
    unfold pySplitlines at hrec
    rw [hrec]
    simp

/-- Replacing the marker element `'\n' :: M` by the two elements `[]` and `M`
does not change the newline-join. -/
theorem joinNL_marker (M : List Char) :
    ∀ (A : List (List Char)), joinNL (A ++ [('\n' :: M)]) = joinNL (A ++ [[], M])
  | [] => rfl
  | [a] => rfl
  | a :: b :: A => by
    have h3 : (b :: A) ++ [('\n' :: M)] = b :: (A ++ [('\n' :: M)]) := rfl
    have h4 : (b :: A) ++ [[], M] = b :: (A ++ [[], M]) := rfl
    rw [show (a :: b :: A) ++ [('\n' :: M)] = a :: ((b :: A) ++ [('\n' :: M)]) from rfl,
      show (a :: b :: A) ++ [[], M] = a :: ((b :: A) ++ [[], M]) from rfl,
      h3, h4, joinNL_cons_cons, joinNL_cons_cons, ← h3, ← h4,
      joinNL_marker M (b :: A)]

/-! ### Claim theorems -/

/-- C1 counterexample: in `["commit", "-m", "", "-m", "x"]` the first message
flag carries an empty value and a later one carries the non-empty value `"x"`,
yet the classifier returns `should_generate = false` (with the original
sequence), not `true` as the claim asserts. -/
theorem c1_counterexample :
    (extract_commit_args ["commit", "-m", "", "-m", "x"]).1 = false ∧
    extract_commit_args ["commit", "-m", "", "-m", "x"] =
      (false, ["commit", "-m", "", "-m", "x"]) := by decide

/-- C1 (amended): with more than one message flag it is not the first flag
that decides: a message flag with a non-empty, non-bare-quote value
short-circuits to `should_generate = false` with the original sequence even
when an earlier message flag carried an empty (or bare-quote) value. -/
theorem c1_theorem (pre mid post : List String) (m1 m2 e v : String)
    (hpre : ∀ t ∈ pre, isMsgFlag t = false) (hmid : ∀ t ∈ mid, isMsgFlag t = false)
    (hm1 : isMsgFlag m1 = true) (hm2 : isMsgFlag m2 = true)
    (he : isEmptyMsgVal e = true) (hv : isEmptyMsgVal v = false) :
    extract_commit_args ("commit" :: (pre ++ m1 :: e :: (mid ++ m2 :: v :: post))) =
      (false, "commit" :: (pre ++ m1 :: e :: (mid ++ m2 :: v :: post))) := by
  rw [extract_commit_args_commit, extract_loop_flagfree _ pre hpre,
    extract_commit_loop.eq_def]
  simp only [hm1, he, if_true]
  rw [extract_loop_flagfree _ mid hmid, extract_commit_loop.eq_def]
  simp [hm2, hv]

/-- C1 witness: a concrete instance of the amended claim. -/
theorem c1_witness :
    extract_commit_args ["commit", "-m", "", "--message", "hello"] =
      (false, ["commit", "-m", "", "--message", "hello"]) :=
  c1_theorem [] [] [] "-m" "--message" "" "hello" (by simp) (by simp)
    (by decide) (by decide) (by decide) (by decide)

/-- C5 counterexample: `["commit", "-m", "hello", "-m", ""]` contains a
message flag followed by the empty string, yet the classifier returns
`should_generate = false` with the original sequence (the earlier non-empty
flag short-circuits), not `true` with the flag removed as the claim asserts. -/
theorem c5_counterexample :
    (extract_commit_args ["commit", "-m", "hello", "-m", ""]).1 = false ∧
    extract_commit_args ["commit", "-m", "hello", "-m", ""] =
      (false, ["commit", "-m", "hello", "-m", ""]) := by decide

/-- C5 (amended): for every commit invocation in which a message flag is
followed by an empty string or a bare quotation mark and no other message-flag
token occurs, the classifier returns `should_generate = true` together with
the cleaned sequence from which that flag and its value have been removed. -/
theorem c5_theorem (pre mid : List String) (m v : String)
    (hpre : ∀ t ∈ pre, isMsgFlag t = false) (hmid : ∀ t ∈ mid, isMsgFlag t = false)
    (hm : isMsgFlag m = true) (hv : isEmptyMsgVal v = true) :
    extract_commit_args ("commit" :: (pre ++ m :: v :: mid)) =
      (true, "commit" :: (pre ++ mid)) := by
  rw [extract_commit_args_commit, extract_loop_flagfree _ pre hpre,
    extract_commit_loop.eq_def]
  simp only [hm, hv, if_true]
  rw [extract_loop_flagfree_all _ mid hmid]
  simp

/-- C5 witness: a concrete instance of the amended claim. -/
theorem c5_witness :
    extract_commit_args ["commit", "-a", "-m", "", "--amend"] =
      (true, ["commit", "-a", "--amend"]) :=
  c5_theorem ["-a"] ["--amend"] "-m" "" (by decide) (by decide) (by decide) (by decide)

/-- C6 (confirmed): whenever the arguments after `commit` contain a message
flag whose following token is a non-empty, non-bare-quote value, the
classifier returns `should_generate = false` and the original argument
sequence unchanged. -/
theorem c6_theorem (args : List String) (i : Nat) (f v : String)
    (hf : args[i]? = some f) (hfl : isMsgFlag f = true)
    (hv : args[i + 1]? = some v) (hne : isEmptyMsgVal v = false) :
    extract_commit_args ("commit" :: args) = (false, "commit" :: args) := by
  rw [extract_commit_args_commit]
  exact extract_loop_nonempty_flag args args false ["commit"] i f v hf hfl hv hne

/-- C6 witness: a concrete instance. -/
theorem c6_witness :
    extract_commit_args ["commit", "-m", "hello"] =
      (false, ["commit", "-m", "hello"]) :=
  c6_theorem ["-m", "hello"] 0 "-m" "hello" (by decide) (by decide) (by decide) (by decide)

/-- C7 counterexample: in `["commit", "-m", "x", "-m"]` the message flag is
the final token with no following value, yet the classifier returns
`should_generate = false` (the earlier flag with the non-empty value `"x"`
short-circuits), not `true` as the claim asserts. -/
theorem c7_counterexample :
    (extract_commit_args ["commit", "-m", "x", "-m"]).1 = false ∧
    extract_commit_args ["commit", "-m", "x", "-m"] =
      (false, ["commit", "-m", "x", "-m"]) := by decide

/-- C7 (amended): for a commit invocation whose final token is a message flag
with no following value, the classifier returns `should_generate = true`,
provided no message flag in the invocation carries a non-empty, non-bare-quote
value. -/
theorem c7_theorem (args : List String) (m : String) (hm : isMsgFlag m = true)
    (hlast : args.getLast? = some m)
    (hpairs : ∀ (i : Nat) (f v : String), args[i]? = some f → isMsgFlag f = true →
      args[i + 1]? = some v → isEmptyMsgVal v = true) :
    (extract_commit_args ("commit" :: args)).1 = true := by
  rw [extract_commit_args_commit]
  exact extract_loop_trailing_flag args args false ["commit"] m hm hlast hpairs

/-- C7 witness: a concrete instance of the amended claim. -/
theorem c7_witness :
    (extract_commit_args ["commit", "-a", "-m"]).1 = true :=
  c7_theorem ["-a", "-m"] "-m" (by decide) (by decide)
    (by
      intro i f v hf hfl hv
      rcases i with _ | i
      · simp at hf
        rw [← hf] at hfl
        exact absurd hfl (by decide)
      · rcases i with _ | i
        · simp at hv
        · simp at hf)

/-- C9 (confirmed): whenever the classifier reports `should_generate = true`,
the cleaned sequence starts with `"commit"`, contains no message-flag token,
is a subsequence of the original arguments after the subcommand (so relative
order is preserved), and keeps every occurrence of every token that is
neither a message flag nor an empty/bare-quote value. -/
theorem c9_theorem (argv out : List String)
    (h : extract_commit_args argv = (true, out)) :
    out.head? = some "commit" ∧ (∀ t ∈ out, isMsgFlag t = false) ∧
    out.tail.Sublist argv.tail ∧
    (∀ t : String, isMsgFlag t = false → isEmptyMsgVal t = false →
      out.tail.count t = argv.tail.count t) := by
  match argv with
  | [] => simp [extract_commit_args] at h
  | first :: args =>
    by_cases hc : first = "commit"
    · subst hc
      rw [extract_commit_args_commit] at h
      obtain ⟨add, hout, hsub, hflags, hcount⟩ :=
        extract_loop_true_inv args args false ["commit"] out h
      have houtc : out = "commit" :: add := by simpa using hout
      subst houtc
      refine ⟨by simp, ?_, by simpa using hsub, by simpa using hcount⟩
      intro t ht
      rcases List.mem_cons.mp ht with rfl | ht'
      · decide
      · exact hflags t ht'
    · simp [extract_commit_args, hc] at h

/-- C9 witness: the invariant at the concrete invocation `commit -m ""`. -/
theorem c9_witness :
    (["commit"] : List String).head? = some "commit" ∧
    (∀ t ∈ (["commit"] : List String), isMsgFlag t = false) ∧
    (["commit"] : List String).tail.Sublist (["commit", "-m", ""] : List String).tail ∧
    (∀ t : String, isMsgFlag t = false → isEmptyMsgVal t = false →
      (["commit"] : List String).tail.count t =
        (["commit", "-m", ""] : List String).tail.count t) :=
  c9_theorem ["commit", "-m", ""] ["commit"] (by decide)

/-- C10 (confirmed): a commit invocation with no message-flag token at all is
classified `should_generate = false` with the argument sequence unchanged, and
`main` passes it through to git unchanged, never reaching the generation
path. -/
theorem c10_theorem (args : List String) (diff_code : Int) (diff_out : List Char)
    (gen_result : Option (List Char)) (git_run : List String → Int)
    (h : ∀ t ∈ args, isMsgFlag t = false) :
    extract_commit_args ("commit" :: args) = (false, "commit" :: args) ∧
    main_model ("commit" :: args) diff_code diff_out gen_result git_run =
      (git_run ("commit" :: args), false) := by
  have h1 : extract_commit_args ("commit" :: args) = (false, "commit" :: args) := by
    rw [extract_commit_args_commit, extract_loop_flagfree_all _ args h]
    simp
  exact ⟨h1, by simp [main_model, h1]⟩

/-- C10 witness: a concrete instance (`commit -a` with no message flag). -/
theorem c10_witness :
    extract_commit_args ["commit", "-a"] = (false, ["commit", "-a"]) ∧
    main_model ["commit", "-a"] 0 [] none (fun _ => 0) = (0, false) :=
  c10_theorem ["-a"] 0 [] none (fun _ => 0) (by decide)

/-- C8 (confirmed): invoking `commit -m ""` when `git diff --cached` succeeds
with empty or all-whitespace output makes `main` exit with code `1` without
ever reaching the text-generation call. -/
theorem c8_theorem (diff_code : Int) (diff_out : List Char)
    (gen_result : Option (List Char)) (git_run : List String → Int)
    (hc : diff_code = 0) (hout : (pyStrip diff_out).isEmpty = true) :
    main_model ["commit", "-m", ""] diff_code diff_out gen_result git_run =
      (1, false) := by
  subst hc
  have hextract : extract_commit_args ["commit", "-m", ""] = (true, ["commit"]) := by
    decide
  have hdiff : get_staged_diff diff_out 500 = [] := by
    rw [get_staged_diff, if_pos hout]
  simp [main_model, hextract, hdiff, pyStrip, pyLstrip, pyRstrip]

/-- C8 witness: concrete empty diff output. -/
theorem c8_witness :
    main_model ["commit", "-m", ""] 0 [] none (fun _ => 0) = (1, false) :=
  c8_theorem 0 [] none (fun _ => 0) rfl (by decide)

/-- Reduction of `generate_message_post` once the split of the stripped
content is known. -/
theorem generate_message_post_eq (content first : List Char) (rest : List (List Char))
    (h : pySplitlines (pyStrip content) = first :: rest) :
    generate_message_post content =
      some (if 120 < (pyStrip first).length then pyRstrip ((pyStrip first).take 120)
        else pyStrip first) := by
  unfold generate_message_post openai_content_post
  rw [h]

/-- C3 (confirmed): whenever message generation succeeds on some model
response content, the returned subject is non-empty, at most 120 characters
long, and contains no newline. -/
theorem c3_theorem (content r : List Char)
    (h : generate_message_post content = some r) :
    r ≠ [] ∧ r.length ≤ 120 ∧ '\n' ∉ r := by
  cases hsp : pySplitlines (pyStrip content) with
  | nil =>
    unfold generate_message_post openai_content_post at h
    rw [hsp] at h
    exact absurd h (by simp)
  | cons first rest =>
    rw [generate_message_post_eq content first rest hsp] at h
    injection h with h1
    have hr := h1.symm
    obtain ⟨c, s', hcs⟩ : ∃ c s', pyStrip content = c :: s' := by
      cases hst : pyStrip content with
      | nil =>
        rw [hst] at hsp
        simp [pySplitlines, splitlinesGo] at hsp
      | cons c s' => exact ⟨c, s', rfl⟩
    have hcws : pyIsSpace c = false := pyStrip_cons_head content c s' hcs
    have hcnl : ¬ c = '\n' := by
      intro e
      rw [e] at hcws
      exact absurd hcws (by decide)
    obtain ⟨t, rfl⟩ : ∃ t, first = c :: t := by
      rw [hcs] at hsp
      unfold pySplitlines at hsp
      rw [splitlinesGo_cons_not_nl c s' [] hcnl] at hsp
      obtain ⟨t, ht⟩ := splitlinesGo_first s' ([] ++ [c]) first rest hsp
      exact ⟨t, by simpa using ht⟩
    have hfnl : '\n' ∉ (c :: t) := by
      refine splitlinesGo_no_nl_mem (pyStrip content) [] (by simp) (c :: t) ?_
      rw [show splitlinesGo (pyStrip content) [] = pySplitlines (pyStrip content) from rfl,
        hsp]
      simp
    have hfl : pyStrip (c :: t) = c :: pyRstrip t := pyStrip_cons_not_ws c t hcws
    rw [hfl] at hr
    by_cases hlong : 120 < (c :: pyRstrip t).length
    · rw [if_pos hlong] at hr
      have htake : (c :: pyRstrip t).take 120 = c :: (pyRstrip t).take 119 := rfl
      rw [htake, pyRstrip_cons_not_ws c _ hcws] at hr
      refine ⟨by rw [hr]; simp, ?_, ?_⟩
      · rw [hr]
        simp only [List.length_cons]
        have hle1 := pyRstrip_length_le ((pyRstrip t).take 119)
        have hle2 : ((pyRstrip t).take 119).length ≤ 119 := by
          rw [List.length_take]
          exact min_le_left _ _
        omega
      · rw [hr]
        intro hmem
        rcases List.mem_cons.mp hmem with e | hmem'
        · exact hcnl e.symm
        · have m1 : '\n' ∈ (pyRstrip t).take 119 := mem_pyRstrip _ _ hmem'
          have m2 : '\n' ∈ pyRstrip t := List.take_subset _ _ m1
          have m3 : '\n' ∈ t := mem_pyRstrip _ _ m2
          exact hfnl (by simp [m3])
    · rw [if_neg hlong] at hr
      refine ⟨by rw [hr]; simp, ?_, ?_⟩
      · rw [hr]
        simp only [List.length_cons] at hlong ⊢
        omega
      · rw [hr]
        intro hmem
        rcases List.mem_cons.mp hmem with e | hmem'
        · exact hcnl e.symm
        · exact hfnl (by simp [mem_pyRstrip _ _ hmem'])

/-- C3 witness: a concrete successful generation. -/
theorem c3_witness :
    "fix: a".toList ≠ ([] : List Char) ∧ "fix: a".toList.length ≤ 120 ∧
      '\n' ∉ "fix: a".toList :=
  c3_theorem "fix: a".toList "fix: a".toList (by decide)

/-- C4 counterexample: a multi-line model response whose first line is 150
characters long but starts with a space.  The whole content is stripped
before line-splitting, so the produced message is 120 letters `a`, not the
trailing-trimmed first 120 characters of the original first line (which
start with the space). -/
theorem c4_counterexample :
    generate_message_post ((' ' :: List.replicate 149 'a') ++ '\n' :: ['b']) ≠
      some (pyRstrip ((' ' :: List.replicate 149 'a').take 120)) ∧
    generate_message_post ((' ' :: List.replicate 149 'a') ++ '\n' :: ['b']) =
      some (List.replicate 120 'a') := by
  constructor
  · decide
  · decide

/-- C4 (amended): for every multi-line model response whose 150-character
first line begins with a non-whitespace character, the post-processed final
message equals the first 120 characters of that first line with trailing
whitespace trimmed. -/
theorem c4_theorem (c : Char) (f rest : List Char) (hc : pyIsSpace c = false)
    (hnl : '\n' ∉ (c :: f)) (hlen : (c :: f).length = 150) :
    generate_message_post ((c :: f) ++ '\n' :: rest) =
      some (pyRstrip ((c :: f).take 120)) := by
  have hraw : (c :: f) ++ '\n' :: rest = c :: (f ++ '\n' :: rest) := by simp
  have hstrip : pyStrip ((c :: f) ++ '\n' :: rest) = c :: pyRstrip (f ++ '\n' :: rest) := by
    rw [hraw, pyStrip_cons_not_ws _ _ hc]
  by_cases hws : ∀ x ∈ rest, pyIsSpace x = true
  · -- everything after the first newline is whitespace: it is stripped away
    have h1 : pyRstrip (f ++ '\n' :: rest) = pyRstrip f := by
      apply pyRstrip_append_ws
      intro x hx
      rcases List.mem_cons.mp hx with rfl | hx'
      · decide
      · exact hws x hx'
    have hnlc : '\n' ∉ (c :: pyRstrip f) := by
      intro hmem
      rcases List.mem_cons.mp hmem with e | hmem'
      · rw [← e] at hc
        exact absurd hc (by decide)
      · exact hnl (by simp [mem_pyRstrip f _ hmem'])
    have hsp : pySplitlines (pyStrip ((c :: f) ++ '\n' :: rest)) = [c :: pyRstrip f] := by
      rw [hstrip, h1]
      unfold pySplitlines
      rw [splitlinesGo_no_newline _ hnlc []]
      simp
    rw [generate_message_post_eq _ _ _ hsp]
    have hfl : pyStrip (c :: pyRstrip f) = c :: pyRstrip f := by
      rw [pyStrip_cons_not_ws _ _ hc, pyRstrip_idem]
    rw [hfl, show (c : Char) :: pyRstrip f = pyRstrip (c :: f) from
      (pyRstrip_cons_not_ws c f hc).symm]
    exact congrArg some (pyRstrip_take_trunc (c :: f) 120)
  · -- some non-whitespace survives after the newline: the first line is intact
    push_neg at hws
    obtain ⟨x, hxmem, hxws⟩ := hws
    have h1 : pyRstrip (f ++ '\n' :: rest) = f ++ '\n' :: pyRstrip rest := by
      rw [show f ++ '\n' :: rest = (f ++ ['\n']) ++ rest by simp,
        pyRstrip_append_keep (f ++ ['\n']) rest x hxmem (by simpa using hxws)]
      simp
    have hsp : pySplitlines (pyStrip ((c :: f) ++ '\n' :: rest)) =
        (c :: f) :: splitlinesGo (pyRstrip rest) [] := by
      rw [hstrip, h1,
        show (c : Char) :: (f ++ '\n' :: pyRstrip rest) = (c :: f) ++ '\n' :: pyRstrip rest
          by simp]
      unfold pySplitlines
      rw [splitlinesGo_append_newline (c :: f) hnl (pyRstrip rest) []]
      simp
    rw [generate_message_post_eq _ _ _ hsp]
    rw [show pyStrip (c :: f) = pyRstrip (c :: f) by
      rw [pyStrip_cons_not_ws _ _ hc, pyRstrip_cons_not_ws _ _ hc]]
    exact congrArg some (pyRstrip_take_trunc (c :: f) 120)

/-- C4 witness: a concrete instance of the amended claim. -/
theorem c4_witness :
    generate_message_post (('a' :: List.replicate 149 'a') ++ '\n' :: ['b']) =
      some (pyRstrip (('a' :: List.replicate 149 'a').take 120)) :=
  c4_theorem 'a' (List.replicate 149 'a') ['b'] (by decide) (by decide) (by simp)

/-- Core computation for C2: on a non-blank captured output with 501 lines,
the collected diff splits back into the first 500 lines, one empty line, and
the marker text line — because the appended marker starts with a newline. -/
theorem staged_diff_overflow (out : List Char)
    (h1 : (pyStrip out).isEmpty = false)
    (h2 : (pySplitlines out).length = 501) :
    pySplitlines (get_staged_diff out 500) =
      (pySplitlines out).take 500 ++ [[], "... (truncated) ...".toList] := by
  have hcond : ¬ ((pyStrip out).isEmpty = true) := by simp [h1]
  rw [get_staged_diff, if_neg hcond]
  show pySplitlines (joinNL (if 500 < (pySplitlines out).length then
      (pySplitlines out).take 500 ++ [truncationMarker] else pySplitlines out)) = _
  rw [if_pos (by rw [h2]; norm_num)]
  rw [show truncationMarker = '\n' :: "... (truncated) ...".toList from rfl]
  rw [joinNL_marker "... (truncated) ...".toList ((pySplitlines out).take 500)]
  apply pySplitlines_joinNL
  · simp
  · intro l hl
    rcases List.mem_append.mp hl with hl1 | hl2
    · exact splitlinesGo_no_nl_mem out [] (by simp) l
        (List.take_subset _ _ hl1)
    · rcases List.mem_cons.mp hl2 with rfl | hl3
      · simp
      · rw [show l = "... (truncated) ...".toList by simpa using hl3]
        decide
  · intro hcontra
    rw [show (pySplitlines out).take 500 ++ [[], "... (truncated) ...".toList] =
        ((pySplitlines out).take 500 ++ [[]]) ++ ["... (truncated) ...".toList] by simp,
      List.getLast?_concat] at hcontra
    injection hcontra with h'
    exact absurd h' (by decide)

/-- C2 (amended): for a staged diff whose captured output is not all
whitespace and has 501 lines, the collected diff text consists of the first
500 original lines, then one empty line, then the marker line
`... (truncated) ...` — 502 lines in total, because the appended truncation
marker itself begins with a newline character. -/
theorem c2_theorem (out : List Char)
    (h1 : (pyStrip out).isEmpty = false)
    (h2 : (pySplitlines out).length = 501) :
    pySplitlines (get_staged_diff out 500) =
      (pySplitlines out).take 500 ++ [[], "... (truncated) ...".toList] ∧
    (pySplitlines (get_staged_diff out 500)).length = 502 := by
  have h := staged_diff_overflow out h1 h2
  refine ⟨h, ?_⟩
  rw [h]
  simp [List.length_take, h2]

/-- The synthetic 501-line diff used for the C2 counterexample and witness
splits back into its 501 lines. -/
theorem diff501_splitlines :
    pySplitlines (joinNL (List.replicate 501 (['a'] : List Char))) =
      List.replicate 501 ['a'] := by
  apply pySplitlines_joinNL
  · simp
  · intro l hl
    rw [List.eq_of_mem_replicate hl]
    decide
  · intro hcontra
    rw [show List.replicate 501 (['a'] : List Char) =
        List.replicate 500 ['a'] ++ [['a']] from List.replicate_succ' .. ▸ rfl,
      List.getLast?_concat] at hcontra
    injection hcontra with h'
    exact absurd h' (by decide)

/-- The synthetic 501-line diff does not strip to the empty string. -/
theorem diff501_strip_nonempty :
    (pyStrip (joinNL (List.replicate 501 (['a'] : List Char)))).isEmpty = false := by
  rw [show List.replicate 501 (['a'] : List Char) = ['a'] :: ['a'] :: List.replicate 499 ['a']
      from rfl,
    joinNL_cons_cons,
    show (['a'] : List Char) ++ '\n' :: joinNL (['a'] :: List.replicate 499 ['a']) =
      'a' :: ('\n' :: joinNL (['a'] :: List.replicate 499 ['a'])) from rfl,
    pyStrip_cons_not_ws _ _ (by decide)]
  simp

/-- C2 counterexample: a synthetic staged diff of 501 one-character lines.
The collected diff does not have 501 lines as the claim asserts — the marker
`"\n... (truncated) ..."` starts with a newline, so the text has 502 lines. -/
theorem c2_counterexample :
    (pySplitlines (get_staged_diff (joinNL (List.replicate 501 (['a'] : List Char))) 500)).length
      ≠ 501 := by
  have h := staged_diff_overflow (joinNL (List.replicate 501 ['a']))
    diff501_strip_nonempty (by rw [diff501_splitlines]; simp)
  rw [h, diff501_splitlines]
  simp [List.length_take]

/-- C2 witness: the amended claim at the synthetic 501-line diff. -/
theorem c2_witness :
    pySplitlines (get_staged_diff (joinNL (List.replicate 501 (['a'] : List Char))) 500) =
      (pySplitlines (joinNL (List.replicate 501 (['a'] : List Char)))).take 500 ++
        [[], "... (truncated) ...".toList] ∧
    (pySplitlines (get_staged_diff (joinNL (List.replicate 501 (['a'] : List Char))) 500)).length
      = 502 :=
  c2_theorem (joinNL (List.replicate 501 ['a'])) diff501_strip_nonempty
    (by rw [diff501_splitlines]; simp)

